import Mathlib

/-
  Verification of the e2cnn example model (src/examples/model.ipynb) against its
  natural-language specification.

  The repository's only source file is the notebook `examples/model.ipynb`: it builds a
  C8-equivariant steerable CNN out of the e2cnn library primitives (FieldType,
  GeometricTensor, R2Conv, InnerBatchNorm, ReLU, PointwiseAvgPoolAntialiased, MaskModule,
  GroupPooling, SequentialModule) and records, in its stored cell outputs, the logits the
  model produces on the 8 rotated copies of a test image, once with random weights and
  once after training.

  The library primitives themselves are not part of the sources, so they are modelled
  here from the specification's contracts (each such definition is marked
  "Modelled from the spec"). The notebook's recorded logit tables ARE part of the source
  and are transcribed verbatim below (in units of 1e-4, the printed precision).
-/

set_option maxHeartbeats 2000000

/-! ## The cyclic group C8 and the representation catalog -/

/-- Modelled from the spec (§4.1, §3 Representation): the catalog of representations of
the cyclic group C8 used by the model: the 1-dimensional trivial representation, the
1-dimensional sign representation (a non-trivial irreducible, whose matrices are not
permutation matrices), and the 8-dimensional regular representation. The group C8 is
modelled as `ZMod 8` under addition (rotation angles compose by adding). -/
inductive RepName : Type
  | trivial : RepName
  | sign : RepName
  | regular : RepName
  deriving DecidableEq, Repr

/-- Modelled from the spec (§3): the dimension of each representation
(trivial: 1, sign: 1, regular: the group order 8). -/
def RepName.dim : RepName → Nat
  | .trivial => 1
  | .sign => 1
  | .regular => 8

/-- Index type for the rows/columns of each representation's matrices. -/
abbrev RepName.idx : RepName → Type
  | .trivial => Unit
  | .sign => Unit
  | .regular => ZMod 8

instance : (r : RepName) → Fintype r.idx
  | .trivial => inferInstanceAs (Fintype Unit)
  | .sign => inferInstanceAs (Fintype Unit)
  | .regular => inferInstanceAs (Fintype (ZMod 8))

instance : (r : RepName) → DecidableEq r.idx
  | .trivial => inferInstanceAs (DecidableEq Unit)
  | .sign => inferInstanceAs (DecidableEq Unit)
  | .regular => inferInstanceAs (DecidableEq (ZMod 8))

/-- Modelled from the spec (§3, §4.1): the matrix assigned to each group element by each
catalog representation.  The trivial representation sends every element to the 1x1
identity; the sign representation sends the rotation by g*45 degrees to ((-1)^g); the
regular representation sends g to the permutation matrix of translation by g on the
group itself. -/
def RepName.mat : (r : RepName) → ZMod 8 → Matrix r.idx r.idx ℚ
  | .trivial => fun _ => Matrix.of fun _ _ => 1
  | .sign => fun g => Matrix.of fun _ _ => (-1) ^ g.val
  | .regular => fun g => Matrix.of fun (i j : ZMod 8) => if i = j + g then 1 else 0

/-- A square rational matrix is a permutation matrix: all entries are 0 or 1 and every
row and every column sums to 1. -/
def IsPermMat {n : Type} [Fintype n] (M : Matrix n n ℚ) : Prop :=
  (∀ i j, M i j = 0 ∨ M i j = 1) ∧ (∀ i, ∑ j, M i j = 1) ∧ (∀ j, ∑ i, M i j = 1)

instance {n : Type} [Fintype n] (M : Matrix n n ℚ) : Decidable (IsPermMat M) :=
  inferInstanceAs (Decidable (_ ∧ _))

/-- A representation is permissible for pointwise operations when its image consists of
permutation matrices only (spec §4.5). -/
def RepName.Permissible (r : RepName) : Prop := ∀ g : ZMod 8, IsPermMat (r.mat g)

instance (r : RepName) : Decidable r.Permissible :=
  inferInstanceAs (Decidable (∀ g : ZMod 8, IsPermMat (r.mat g)))

/-! ## Error taxonomy, Field Types, and the layer constructors -/

/-- Modelled from the spec (§7): the error taxonomy of the core. -/
inductive E2Error : Type
  | ShapeMismatchError : E2Error
  | TypeMismatchError : E2Error
  | TypeChainMismatchError : E2Error
  | UnsupportedRepresentationError : E2Error
  | UnsupportedGroupError : E2Error
  | ImmutableStateError : E2Error
  deriving DecidableEq, Repr

/-- Modelled from the spec (§3, §4.2): a Field Type is an ordered sequence of
representations. -/
abbrev FieldType : Type := List RepName

/-- Modelled from the spec (§4.2): the total channel count of a Field Type. -/
def FieldType.size (ft : FieldType) : Nat := ft.foldr (fun r acc => r.dim + acc) 0

/-- Modelled from the spec (§4.8): the output Field Type of Group Pooling, one trivial
representation per input representation block. -/
def groupPoolingOutType (ft : FieldType) : FieldType := ft.map fun _ => RepName.trivial

/-- Modelled from the spec (§4.8): constructing a Group Pooling layer checks that the
input Field Type consists of regular representations only, and on success exposes the
output Field Type with one trivial representation per input block; otherwise it fails
with UnsupportedRepresentationError. -/
def groupPooling (ft : FieldType) : Except E2Error FieldType :=
  if ∀ r ∈ ft, r = RepName.regular then .ok (groupPoolingOutType ft)
  else .error .UnsupportedRepresentationError

/-- Modelled from the spec (§4.5): an equivariant pointwise operation checks that every
representation in its Field Type has a permutation-matrix image; on success the Field
Type is unchanged, otherwise it fails with UnsupportedRepresentationError. -/
def pointwiseModule (ft : FieldType) : Except E2Error FieldType :=
  if ∀ r ∈ ft, r.Permissible then .ok ft
  else .error .UnsupportedRepresentationError

/-- Modelled from the spec (§4.5): the equivariant ReLU nonlinearity (nn.ReLU in the
notebook), as a pointwise operation at the Field-Type level. -/
def reLU : FieldType → Except E2Error FieldType := pointwiseModule

/-- Modelled from the spec (§4.5): inner batch normalization (nn.InnerBatchNorm in the
notebook), as a pointwise operation at the Field-Type level. -/
def innerBatchNorm : FieldType → Except E2Error FieldType := pointwiseModule

/-- Modelled from the spec (§4.9, §9): a layer, seen through the common capability
interface, declares an input and an output Field Type. -/
structure LayerType : Type where
  in_type : FieldType
  out_type : FieldType
  deriving DecidableEq, Repr

/-- Modelled from the spec (§4.9): the chain check of Sequential Composition: every
layer's declared output Field Type must structurally equal the next layer's declared
input Field Type. -/
def chainOk : List LayerType → Bool
  | [] => true
  | [_] => true
  | a :: b :: rest => (a.out_type == b.in_type) && chainOk (b :: rest)

/-- Modelled from the spec (§4.9): constructing a SequentialModule from a nonempty list
of layers validates the Field-Type chain, failing fast with TypeChainMismatchError; on
success the composite declares the first layer's input type and the last layer's output
type. -/
def sequentialModule (first : LayerType) (rest : List LayerType) : Except E2Error LayerType :=
  if chainOk (first :: rest) then .ok ⟨first.in_type, (rest.getLastD first).out_type⟩
  else .error .TypeChainMismatchError

/-- Shape of a raw numeric tensor (batch, channels, height, width), spec §6. -/
structure TensorShape : Type where
  batch : Nat
  channels : Nat
  height : Nat
  width : Nat
  deriving DecidableEq, Repr

/-- A Geometric Tensor at the shape level: a raw tensor shape bound to a Field Type. -/
structure GeoTensor : Type where
  shape : TensorShape
  fieldType : FieldType
  deriving DecidableEq, Repr

/-- Modelled from the spec (§4.3): wrapping a raw tensor into a Geometric Tensor
(nn.GeometricTensor in the notebook) fails with ShapeMismatchError when the tensor's
channel dimension differs from the Field Type's size. -/
def geometricTensor (t : TensorShape) (ft : FieldType) : Except E2Error GeoTensor :=
  if t.channels = ft.size then .ok ⟨t, ft⟩ else .error .ShapeMismatchError

/-! ## Boundary mask (MaskModule) -/

/-- A feature tensor with explicit per-channel spatial data, used for the boundary
mask: `data c x y` is the value of channel `c` at pixel `(x, y)`. -/
structure ChannelTensor : Type where
  fieldType : FieldType
  data : Nat → Nat → Nat → ℚ

/-- Modelled from the spec (§4.7): membership of pixel (x, y) of an s-by-s grid in the
disk around the grid center whose radius is the center distance minus the margin
(a percentage of it). -/
def maskDisk (s : Nat) (margin : ℚ) (x y : Nat) : Bool :=
  let c : ℚ := ((s : ℚ) - 1) / 2
  let r : ℚ := c - margin / 100 * c
  decide (((x : ℚ) - c) ^ 2 + ((y : ℚ) - c) ^ 2 ≤ r ^ 2)

/-- Modelled from the spec (§4.7): the boundary mask (nn.MaskModule in the notebook)
zeroes out every pixel outside the disk and keeps the Field Type. -/
def maskModule (s : Nat) (margin : ℚ) (t : ChannelTensor) : ChannelTensor :=
  ⟨t.fieldType, fun c x y => if maskDisk s margin x y then t.data c x y else 0⟩

/-! ## Group pooling on actual channel values -/

/-- Modelled from the spec (§4.8): the value computed by Group Pooling on a feature
vector of purely regular type: per regular block `b` of the `k` blocks, the maximum of
the block's 8 entries. The feature vector is taken at one spatial location (the model
applies Group Pooling after the spatial dimensions have been pooled to a single point). -/
def gpoolMax (k : Nat) (x : Fin k → ZMod 8 → ℚ) : Fin k → ℚ :=
  fun b => Finset.univ.sup' Finset.univ_nonempty (x b)

/-- Modelled from the spec (§4.3): the channel action of the group element g on a
feature vector of purely regular type: every regular block is multiplied by the regular
representation's matrix of g. -/
def regularTransform (g : ZMod 8) (k : Nat) (x : Fin k → ZMod 8 → ℚ) :
    Fin k → ZMod 8 → ℚ :=
  fun b => (RepName.regular.mat g).mulVec (x b)

/-! ## Steerable convolution (R2Conv) -/

/-- Modelled from the spec (§4.3): the transform-under-group operation on a feature
field: the tensor is spatially transformed by applying g's action to the coordinates
and channel-mixed by the representation's image of g. -/
def transformUnderGroup {G P : Type} {d : Nat} (act : G → P → P)
    (rep : G → Matrix (Fin d) (Fin d) ℚ) (g : G) (f : P → Fin d → ℚ) : P → Fin d → ℚ :=
  fun x => (rep g).mulVec (f (act g x))

/-- Modelled from the spec (§4.4): the forward pass of a steerable convolution layer
(nn.R2Conv in the notebook) with zero padding: a plain spatial convolution of the input
field with an explicit kernel `K` supported on the finite set `S` of offsets. -/
def r2Conv {P : Type} [AddCommGroup P] [DecidableEq P] {din dout : Nat}
    (S : Finset P) (K : P → Matrix (Fin dout) (Fin din) ℚ)
    (f : P → Fin din → ℚ) : P → Fin dout → ℚ :=
  fun x => ∑ y in S, (K y).mulVec (f (x - y))

/-! ## Bilinear image rotation (the notebook's test harness uses PIL rotate) -/

/-- Zero extension of a 29x29 image to the whole integer grid; PIL's rotate fills pixels
sampled outside the source image with 0. -/
def extendZ (img : Fin 29 → Fin 29 → ℚ) (a b : ℤ) : ℚ :=
  if h : 0 ≤ a ∧ a < 29 ∧ 0 ≤ b ∧ b < 29 then
    img ⟨a.toNat, by omega⟩ ⟨b.toNat, by omega⟩
  else 0

/-- Bilinear sampling of the zero-extended image at a rational source point (u, v):
the four neighbouring pixels are combined with weights given by the fractional parts. -/
def bilinearAt (img : Fin 29 → Fin 29 → ℚ) (u v : ℚ) : ℚ :=
  let u0 : ℤ := ⌊u⌋
  let v0 : ℤ := ⌊v⌋
  let du : ℚ := u - u0
  let dv : ℚ := v - v0
  (1 - du) * (1 - dv) * extendZ img u0 v0
    + du * (1 - dv) * extendZ img (u0 + 1) v0
    + (1 - du) * dv * extendZ img u0 (v0 + 1)
    + du * dv * extendZ img (u0 + 1) (v0 + 1)

/-- The inverse-rotation source coordinate for destination pixel (i, j) when rotating a
29x29 image about its center by an angle with cosine `co` and sine `si`.  Pixel centers
are indexed 0..28, so the image center (14.5, 14.5) in continuous coordinates is pixel
index (14, 14). -/
def srcCoord (co si : ℚ) (i j : Fin 29) : ℚ × ℚ :=
  (14 + co * ((i.val : ℚ) - 14) + si * ((j.val : ℚ) - 14),
   14 - si * ((i.val : ℚ) - 14) + co * ((j.val : ℚ) - 14))

/-- Rotation of a 29x29 image by bilinear resampling, as performed by the notebook's
test harness (`x.rotate(r*45., Image.BILINEAR)` after padding to 29x29). -/
def rotateBilinear (co si : ℚ) (img : Fin 29 → Fin 29 → ℚ) : Fin 29 → Fin 29 → ℚ :=
  fun i j => bilinearAt img (srcCoord co si i j).1 (srcCoord co si i j).2

/-- Cosines of the four multiples of 90 degrees. -/
def cos90 : Fin 4 → ℚ := ![1, 0, -1, 0]

/-- Sines of the four multiples of 90 degrees. -/
def sin90 : Fin 4 → ℚ := ![0, 1, 0, -1]

/-- The pixel permutation of the 29x29 grid realised by rotation by k*90 degrees. -/
def rotIdx : Fin 4 → Fin 29 × Fin 29 → Fin 29 × Fin 29 :=
  ![fun p => p,
    fun p => (p.2, p.1.rev),
    fun p => (p.1.rev, p.2.rev),
    fun p => (p.2.rev, p.1)]

/-! ## The notebook's recorded logits

The notebook stores the model's output logits for the 8 rotated copies of the first
test image, printed to 4 decimal places, once for the randomly initialized model
(cell-13 output) and once after training (cell-18 output).  The tables below transcribe
those outputs verbatim, in units of 1e-4: row r is the rotation by r*45 degrees, column
d the logit of digit d. -/

/-- The recorded logits of the randomly initialized model, in units of 1e-4. -/
def untrainedLogits : Fin 8 → Fin 10 → ℤ :=
  ![![1023, 339, 450, -160, 954, 183, -1558, -1394, 507, 629],
    ![1031, 354, 473, -193, 953, 183, -1527, -1340, 464, 550],
    ![1023, 339, 450, -160, 954, 183, -1558, -1394, 507, 629],
    ![1031, 354, 473, -193, 953, 183, -1527, -1340, 464, 550],
    ![1023, 339, 450, -160, 954, 183, -1558, -1394, 507, 629],
    ![1031, 354, 473, -193, 953, 183, -1527, -1340, 464, 550],
    ![1023, 339, 450, -160, 954, 183, -1558, -1394, 507, 629],
    ![1031, 354, 473, -193, 953, 183, -1527, -1340, 464, 550]]

/-- The recorded logits of the trained model, in units of 1e-4. -/
def trainedLogits : Fin 8 → Fin 10 → ℤ :=
  ![![-15589, -24168, -6653, 783, 757, -1668, 48096, -13324, -13546, 6078],
    ![-17430, -20636, -4432, 2064, -12886, 5579, 49872, -2233, -11546, -5125],
    ![-15588, -24168, -6653, 783, 757, -1669, 48096, -13324, -13546, 6078],
    ![-17430, -20637, -4432, 2064, -12886, 5579, 49872, -2233, -11546, -5125],
    ![-15589, -24168, -6653, 783, 757, -1669, 48096, -13324, -13546, 6078],
    ![-17430, -20636, -4432, 2064, -12886, 5579, 49872, -2233, -11546, -5125],
    ![-15589, -24168, -6653, 783, 757, -1668, 48096, -13324, -13546, 6078],
    ![-17430, -20636, -4432, 2064, -12886, 5579, 49872, -2233, -11546, -5125]]

/-! ## A concrete instantiation of the convolution data

A concrete group action for exercising the steerable convolution: the cyclic group C4
(the subgroup of C8 of multiples of 90 degrees, whose rotations map the integer pixel
grid to itself), acting on the plane of integer points by quarter turns. -/

/-- Quarter turn of the integer plane. -/
def rot90 (p : ℤ × ℤ) : ℤ × ℤ := (-p.2, p.1)

/-- The action of the rotation group C4 on the integer plane: the element g acts by g
quarter turns. -/
def actC4 (g : Multiplicative (ZMod 4)) (p : ℤ × ℤ) : ℤ × ℤ :=
  rot90^[(Multiplicative.toAdd g).val] p

/-- A rotation-invariant kernel support: the origin and its four neighbours. -/
def S5 : Finset (ℤ × ℤ) := {(0, 0), (1, 0), (0, 1), (-1, 0), (0, -1)}

/-- A concrete rotation-invariant 1-in 1-out kernel on that support. -/
def Kc : ℤ × ℤ → Matrix (Fin 1) (Fin 1) ℚ :=
  fun p => Matrix.of fun _ _ => if p = (0, 0) then 2 else 1

/-- The trivial (scalar field) representation of C4, as 1x1 matrices. -/
def rtriv : Multiplicative (ZMod 4) → Matrix (Fin 1) (Fin 1) ℚ := fun _ => 1

/-- A concrete scalar input field on the integer plane. -/
def fdemo : ℤ × ℤ → Fin 1 → ℚ := fun p _ => (p.1 : ℚ) + 2 * (p.2 : ℚ) + (p.1 : ℚ) * (p.2 : ℚ)

/-!
# Theorems

First the helper lemmas, then the claim theorems.
-/

/-! ## Properties of the catalog representations -/

theorem regular_mat_apply (g i j : ZMod 8) :
    RepName.regular.mat g i j = if i = j + g then 1 else 0 := rfl

theorem regular_row_sum (g i : ZMod 8) : ∑ j : ZMod 8, RepName.regular.mat g i j = 1 := by
  have h : ∀ j : ZMod 8, RepName.regular.mat g i j = if j = i - g then 1 else 0 := by
    intro j
    rw [regular_mat_apply]
    by_cases hc : j = i - g
    · rw [if_pos hc, if_pos (by rw [hc]; ring)]
    · rw [if_neg hc, if_neg fun hh => hc (by rw [hh]; ring)]
  simp_rw [h]
  rw [Finset.sum_ite_eq' Finset.univ (i - g) fun _ => (1 : ℚ)]
  simp

theorem regular_col_sum (g j : ZMod 8) : ∑ i : ZMod 8, RepName.regular.mat g i j = 1 := by
  simp_rw [regular_mat_apply]
  rw [Finset.sum_ite_eq' Finset.univ (j + g) fun _ => (1 : ℚ)]
  simp

theorem trivial_permissible : RepName.trivial.Permissible := by
  intro g
  show IsPermMat (n := Unit) (Matrix.of fun _ _ => (1 : ℚ))
  refine ⟨fun i j => Or.inr rfl, fun i => ?_, fun j => ?_⟩ <;> simp

theorem regular_permissible : RepName.regular.Permissible := by
  intro g
  refine ⟨fun (i j : ZMod 8) => ?_, fun i => regular_row_sum g i, fun j => regular_col_sum g j⟩
  by_cases hc : i = j + g
  · right
    rw [regular_mat_apply, if_pos hc]
  · left
    rw [regular_mat_apply, if_neg hc]

theorem sign_not_permissible : ¬ RepName.sign.Permissible := by
  intro hp
  obtain ⟨h01, -, -⟩ := hp 1
  have hval : ((1 : ZMod 8)).val = 1 := rfl
  have h := h01 Unit.unit Unit.unit
  rw [show RepName.sign.mat 1 Unit.unit Unit.unit = (-1 : ℚ) ^ ((1 : ZMod 8)).val from rfl,
    hval, pow_one] at h
  rcases h with h | h <;> norm_num at h

/-- C4: every representation supplied by the catalog for C8 is a group homomorphism
into matrices: R(g) * R(h) = R(g + h) for all rotations g, h (composition of rotations
by g*45 and h*45 degrees is rotation by (g+h)*45 degrees).  The equality is exact in
rational arithmetic, hence a fortiori within floating-point tolerance. -/
theorem catalog_homomorphism (r : RepName) (g h : ZMod 8) :
    r.mat g * r.mat h = r.mat (g + h) := by
  cases r
  case trivial =>
    ext i j
    simp [RepName.mat, Matrix.mul_apply]
  case sign =>
    ext i j
    simp only [RepName.mat, Matrix.mul_apply, Matrix.of_apply]
    rw [Finset.sum_const, Finset.card_univ,
      show Fintype.card (RepName.sign.idx) = 1 from rfl, one_smul]
    rw [← pow_add, ZMod.val_add, neg_one_pow_eq_pow_mod_two,
      neg_one_pow_eq_pow_mod_two (n := (g.val + h.val) % 8)]
    congr 1
    omega
  case regular =>
    ext i j
    simp only [RepName.mat, Matrix.mul_apply, Matrix.of_apply]
    rw [Finset.sum_eq_single (j + h)]
    · rw [if_pos rfl, mul_one, show j + h + g = j + (g + h) by ring]
    · intro b _ hb
      rw [if_neg hb, mul_zero]
    · intro hmem
      exact absurd (Finset.mem_univ _) hmem

/-! ## Field Type and wrapping -/

theorem size_nil : FieldType.size [] = 0 := rfl

theorem size_cons (r : RepName) (ft : FieldType) :
    FieldType.size (r :: ft) = r.dim + FieldType.size ft := rfl

theorem size_eq_sum_dims (ft : FieldType) :
    FieldType.size ft = (ft.map RepName.dim).sum := by
  induction ft with
  | nil => rfl
  | cons r tl ih => rw [size_cons, List.map_cons, List.sum_cons, ih]

theorem size_replicate_trivial (n : Nat) :
    FieldType.size (List.replicate n RepName.trivial) = n := by
  induction n with
  | zero => rfl
  | succ m ih =>
    rw [List.replicate_succ, size_cons, ih, RepName.dim]
    omega

theorem groupPoolingOutType_eq_replicate (ft : FieldType) :
    groupPoolingOutType ft = List.replicate ft.length RepName.trivial := by
  induction ft with
  | nil => rfl
  | cons r tl ih =>
    rw [groupPoolingOutType, List.map_cons, List.length_cons, List.replicate_succ]
    rw [groupPoolingOutType] at ih
    rw [ih]

/-- C7: the size of every Field Type is the sum of its constituent representations'
dimensions, and wrapping a raw tensor into a Geometric Tensor fails with
ShapeMismatchError exactly when the tensor's channel dimension differs from the Field
Type's size (and otherwise binds the tensor to the Field Type unchanged). -/
theorem geometricTensor_spec (t : TensorShape) (ft : FieldType) :
    FieldType.size ft = (ft.map RepName.dim).sum ∧
    (geometricTensor t ft = .error .ShapeMismatchError ↔ t.channels ≠ FieldType.size ft) ∧
    (∀ gt, geometricTensor t ft = .ok gt → gt.shape = t ∧ gt.fieldType = ft) := by
  refine ⟨size_eq_sum_dims ft, ?_, ?_⟩
  · by_cases h : t.channels = FieldType.size ft
    · rw [geometricTensor, if_pos h]
      simp [h]
    · rw [geometricTensor, if_neg h]
      simp [h]
  · intro gt hok
    by_cases h : t.channels = FieldType.size ft
    · rw [geometricTensor, if_pos h] at hok
      cases hok
      exact ⟨rfl, rfl⟩
    · rw [geometricTensor, if_neg h] at hok
      cases hok

/-- Witness for C7: wrapping a 5-channel tensor with a Field Type of one regular field
(size 8) fails with ShapeMismatchError; wrapping an 8-channel tensor succeeds and keeps
the Field Type. -/
theorem geometricTensor_spec_witness :
    geometricTensor ⟨1, 5, 29, 29⟩ [RepName.regular] = .error .ShapeMismatchError ∧
    (⟨⟨1, 8, 29, 29⟩, [RepName.regular]⟩ : GeoTensor).fieldType = [RepName.regular] := by
  constructor
  · exact (geometricTensor_spec ⟨1, 5, 29, 29⟩ [RepName.regular]).2.1.mpr (by decide)
  · exact ((geometricTensor_spec ⟨1, 8, 29, 29⟩ [RepName.regular]).2.2
      ⟨⟨1, 8, 29, 29⟩, [RepName.regular]⟩ rfl).2

/-! ## Group Pooling's contract -/

/-- C5: constructing Group Pooling fails with UnsupportedRepresentationError exactly
when the input Field Type contains a representation other than the regular one; on
success the output Field Type has exactly one trivial representation per input block,
so its size equals the number of input blocks (64 regular fields pool to 64 channels,
as in the model, see the witness). -/
theorem groupPooling_spec (ft : FieldType) :
    (groupPooling ft = .error .UnsupportedRepresentationError ↔
      ∃ r ∈ ft, r ≠ RepName.regular) ∧
    (∀ outT, groupPooling ft = .ok outT →
      outT = List.replicate ft.length RepName.trivial ∧
        FieldType.size outT = ft.length) := by
  by_cases h : ∀ r ∈ ft, r = RepName.regular
  · constructor
    · rw [groupPooling, if_pos h]
      constructor
      · intro hc
        cases hc
      · rintro ⟨r, hr, hne⟩
        exact absurd (h r hr) hne
    · intro outT hok
      rw [groupPooling, if_pos h] at hok
      cases hok
      refine ⟨groupPoolingOutType_eq_replicate ft, ?_⟩
      rw [groupPoolingOutType_eq_replicate ft, size_replicate_trivial]
  · constructor
    · rw [groupPooling, if_neg h]
      constructor
      · intro _
        push_neg at h
        exact h
      · intro _
        rfl
    · intro outT hok
      rw [groupPooling, if_neg h] at hok
      cases hok

/-- Witness for C5: the model's 64 regular fields of C8 pool to an output Field Type of
64 trivial fields, of size 64; a Field Type containing a trivial representation is
rejected with UnsupportedRepresentationError. -/
theorem groupPooling_spec_witness :
    (List.replicate 64 RepName.regular).length = 64 ∧
    FieldType.size (List.replicate 64 RepName.trivial) = 64 ∧
    groupPooling [RepName.trivial] = .error .UnsupportedRepresentationError := by
  refine ⟨by decide, ?_, ?_⟩
  · have h := (groupPooling_spec (List.replicate 64 RepName.regular)).2
      (List.replicate 64 RepName.trivial)
      (by rw [groupPooling, if_pos (by intro r hr; exact (List.eq_of_mem_replicate hr))]
          rw [groupPoolingOutType_eq_replicate, List.length_replicate])
    rw [h.2]
    decide
  · exact (groupPooling_spec [RepName.trivial]).1.mpr
      ⟨RepName.trivial, by decide, by decide⟩

/-! ## Sequential composition -/

theorem getLastD_eq_getLast (a : LayerType) (l : List LayerType) :
    l.getLastD a = (a :: l).getLast (List.cons_ne_nil a l) := by
  induction l generalizing a with
  | nil => rfl
  | cons b tl ih =>
    rw [List.getLastD_cons, ih b, List.getLast_cons (List.cons_ne_nil b tl)]

theorem chainOk_iff (ls : List LayerType) :
    chainOk ls = true ↔ List.Chain' (fun a b => a.out_type = b.in_type) ls := by
  induction ls with
  | nil => simp [chainOk]
  | cons a tl ih =>
    cases tl with
    | nil => simp [chainOk]
    | cons b tl2 =>
      rw [chainOk, Bool.and_eq_true, beq_iff_eq, List.chain'_cons, ih]

/-- C6: constructing a sequential composition from a nonempty list of layers fails with
TypeChainMismatchError exactly when some layer's declared output Field Type differs
from the next layer's declared input Field Type; when all consecutive types match, the
construction succeeds and the composite declares the first layer's input type and the
last layer's output type. -/
theorem sequentialModule_spec (first : LayerType) (rest : List LayerType) :
    (sequentialModule first rest = .error .TypeChainMismatchError ↔
      ¬ List.Chain' (fun a b => a.out_type = b.in_type) (first :: rest)) ∧
    (List.Chain' (fun a b => a.out_type = b.in_type) (first :: rest) →
      sequentialModule first rest =
        .ok ⟨first.in_type,
          ((first :: rest).getLast (List.cons_ne_nil first rest)).out_type⟩) := by
  constructor
  · by_cases h : chainOk (first :: rest)
    · rw [sequentialModule, if_pos h]
      rw [← chainOk_iff]
      simp [h]
    · rw [sequentialModule, if_neg h]
      rw [← chainOk_iff]
      simp [h]
  · intro hchain
    rw [sequentialModule, if_pos ((chainOk_iff _).mpr hchain), getLastD_eq_getLast]

/-- Witness for C6: composing a layer with output type one regular field after a layer
with input type one trivial field succeeds with the expected end types, while a
mismatched chain is rejected with TypeChainMismatchError. -/
theorem sequentialModule_spec_witness :
    sequentialModule ⟨[RepName.trivial], [RepName.regular]⟩
        [⟨[RepName.regular], [RepName.trivial]⟩] =
      .ok ⟨[RepName.trivial], [RepName.trivial]⟩ ∧
    sequentialModule ⟨[RepName.trivial], [RepName.regular]⟩
        [⟨[RepName.trivial], [RepName.trivial]⟩] =
      .error .TypeChainMismatchError := by
  constructor
  · exact (sequentialModule_spec ⟨[RepName.trivial], [RepName.regular]⟩
      [⟨[RepName.regular], [RepName.trivial]⟩]).2
      (List.chain'_cons.mpr ⟨rfl, List.chain'_singleton _⟩)
  · refine (sequentialModule_spec _ _).1.mpr ?_
    rw [List.chain'_cons]
    rintro ⟨hc, -⟩
    cases hc

/-! ## Pointwise operations (ReLU, InnerBatchNorm) -/

/-- C8: the equivariant pointwise operations (ReLU and inner batch normalization) keep
the Field Type unchanged whenever they succeed, succeed exactly on Field Types all of
whose representations have permutation-matrix images, and fail with
UnsupportedRepresentationError when some representation's image contains a
non-permutation matrix. -/
theorem pointwise_spec (ft : FieldType) :
    ((∀ r ∈ ft, r.Permissible) → reLU ft = .ok ft ∧ innerBatchNorm ft = .ok ft) ∧
    ((∃ r ∈ ft, ¬ r.Permissible) →
      reLU ft = .error .UnsupportedRepresentationError ∧
        innerBatchNorm ft = .error .UnsupportedRepresentationError) ∧
    (∀ outT, reLU ft = .ok outT → outT = ft) ∧
    (∀ outT, innerBatchNorm ft = .ok outT → outT = ft) := by
  have hpm : ∀ outT, pointwiseModule ft = .ok outT → outT = ft := by
    intro outT hok
    by_cases h : ∀ r ∈ ft, r.Permissible
    · rw [pointwiseModule, if_pos h] at hok
      cases hok
      rfl
    · rw [pointwiseModule, if_neg h] at hok
      cases hok
  refine ⟨?_, ?_, hpm, hpm⟩
  · intro h
    have : pointwiseModule ft = .ok ft := by rw [pointwiseModule, if_pos h]
    exact ⟨this, this⟩
  · rintro ⟨r, hr, hnp⟩
    have hno : ¬ ∀ s ∈ ft, s.Permissible := fun hall => hnp (hall r hr)
    have : pointwiseModule ft = .error .UnsupportedRepresentationError := by
      rw [pointwiseModule, if_neg hno]
    exact ⟨this, this⟩

/-- Witness for C8: ReLU on one regular field succeeds and keeps the Field Type; ReLU
and InnerBatchNorm on the sign representation (whose image contains the non-permutation
matrix (-1)) fail with UnsupportedRepresentationError. -/
theorem pointwise_spec_witness :
    reLU [RepName.regular] = .ok [RepName.regular] ∧
    reLU [RepName.sign] = .error .UnsupportedRepresentationError ∧
    innerBatchNorm [RepName.sign] = .error .UnsupportedRepresentationError := by
  refine ⟨?_, ?_, ?_⟩
  · exact ((pointwise_spec [RepName.regular]).1 (fun r hr => by
      rw [List.mem_singleton] at hr
      rw [hr]
      exact regular_permissible)).1
  · exact ((pointwise_spec [RepName.sign]).2.1
      ⟨RepName.sign, List.mem_singleton.mpr rfl, sign_not_permissible⟩).1
  · exact ((pointwise_spec [RepName.sign]).2.1
      ⟨RepName.sign, List.mem_singleton.mpr rfl, sign_not_permissible⟩).2

/-! ## Boundary mask -/

/-- C9: the boundary mask is Field-Type preserving and idempotent: masking twice equals
masking once, and the output's Field Type equals the input's.  (In this model the mask
is a pure function by construction.) -/
theorem maskModule_spec (s : Nat) (margin : ℚ) (t : ChannelTensor) :
    (maskModule s margin t).fieldType = t.fieldType ∧
    maskModule s margin (maskModule s margin t) = maskModule s margin t := by
  refine ⟨rfl, ?_⟩
  simp only [maskModule]
  refine congrArg (ChannelTensor.mk t.fieldType) ?_
  funext c x y
  by_cases h : maskDisk s margin x y <;> simp [h]

/-! ## Group pooling invariance -/

theorem regular_mulVec (g : ZMod 8) (v : ZMod 8 → ℚ) (i : ZMod 8) :
    (RepName.regular.mat g).mulVec v i = v (i - g) := by
  have h : ∀ j : ZMod 8, RepName.regular.mat g i j * v j
      = if j = i - g then v j else 0 := by
    intro j
    rw [regular_mat_apply]
    by_cases hc : j = i - g
    · rw [if_pos hc, if_pos (by rw [hc]; ring), one_mul]
    · rw [if_neg hc, if_neg fun hh => hc (by rw [hh]; ring), zero_mul]
  simp only [Matrix.mulVec, Matrix.dotProduct]
  rw [Finset.sum_congr rfl fun j _ => h j, Finset.sum_ite_eq' Finset.univ (i - g) v]
  simp

/-- C3: group pooling of a Geometric Tensor of purely regular type is invariant under
the action of every group element g: pooling the g-transformed tensor yields exactly
the pooled output of the untransformed tensor.  (At the point where the model applies
Group Pooling the spatial dimensions have been pooled away, so g acts by the regular
channel permutation alone; the per-block maximum is invariant under any permutation of
the block's 8 entries.) -/
theorem groupPooling_invariant (g : ZMod 8) (k : Nat) (x : Fin k → ZMod 8 → ℚ) :
    gpoolMax k (regularTransform g k x) = gpoolMax k x := by
  funext b
  simp only [gpoolMax, regularTransform]
  apply le_antisymm
  · refine Finset.sup'_le _ _ fun i _ => ?_
    rw [regular_mulVec]
    exact Finset.le_sup' (x b) (Finset.mem_univ (i - g))
  · refine Finset.sup'_le _ _ fun i _ => ?_
    have h2 := Finset.le_sup' ((RepName.regular.mat g).mulVec (x b))
      (Finset.mem_univ (i + g))
    rw [regular_mulVec, show i + g - g = i by ring] at h2
    exact h2

/-! ## The notebook's recorded logits and the 1e-3 tolerance -/

/-- C1 counterexample: in the notebook's own recorded output of the trained model, the
45-degree logits do not match the 0-degree reference within 1e-3: digit 4's logit is
0.0757 at 0 degrees but -1.2886 at 45 degrees, a difference of 1.3643.  (Units of 1e-4:
the tolerance 1e-3 is 10 units.)  The same recorded run also violates the tolerance for
the untrained model (digit 9: 0.0629 vs 0.0550). -/
theorem logits_tolerance_counterexample :
    ¬ ∀ (r : Fin 8) (d : Fin 10), |trainedLogits r d - trainedLogits 0 d| ≤ 10 := by
  decide

/-- C1 (amended): in the notebook's recorded outputs, for both the untrained and the
trained model, the logits at rotations by even multiples of 45 degrees match the
0-degree reference within 1e-3, and the logits at odd multiples of 45 degrees match the
45-degree row within 1e-3; the odd rows themselves may deviate from the 0-degree
reference by far more than 1e-3 (up to about 1.36 after training). -/
theorem logits_invariance_amended :
    ∀ (r : Fin 8) (d : Fin 10),
      (r.val % 2 = 0 →
        |untrainedLogits r d - untrainedLogits 0 d| ≤ 10 ∧
          |trainedLogits r d - trainedLogits 0 d| ≤ 10) ∧
      (r.val % 2 = 1 →
        |untrainedLogits r d - untrainedLogits 1 d| ≤ 10 ∧
          |trainedLogits r d - trainedLogits 1 d| ≤ 10) := by
  decide

/-- Witness for the amended C1: the 180-degree row matches the reference and the
225-degree row matches the 45-degree row, for digit 7 of the trained model. -/
theorem logits_invariance_amended_witness :
    |trainedLogits 4 7 - trainedLogits 0 7| ≤ 10 ∧
      |trainedLogits 5 7 - trainedLogits 1 7| ≤ 10 :=
  ⟨((logits_invariance_amended 4 7).1 (by decide)).2,
   ((logits_invariance_amended 5 7).2 (by decide)).2⟩

/-! ## Steerable convolution equivariance -/

theorem mulVec_finset_sum {P : Type} {m n : Nat} (M : Matrix (Fin m) (Fin n) ℚ)
    (S : Finset P) (F : P → Fin n → ℚ) :
    M.mulVec (∑ y in S, F y) = ∑ y in S, M.mulVec (F y) := by
  classical
  induction S using Finset.induction_on with
  | empty => simp [Matrix.mulVec_zero]
  | insert hns ih =>
    rw [Finset.sum_insert hns, Finset.sum_insert hns, Matrix.mulVec_add, ih]

/-- C2: a steerable convolution layer whose kernel satisfies the spec's equivariance
constraint K(g⁻¹ x) = R_out(g) K(x) R_in(g)⁻¹ (stated below with the invertible factor
R_in(g) cleared to the left side) is exactly equivariant: applying the layer to the
g-transformed input equals the g-transform of applying the layer to the original input,
for every group element g.  The equality is exact in rational arithmetic, hence a
fortiori within the spec's 1e-4 relative tolerance.  The hypotheses say that `act` is a
linear group action on the plane of points `P` that preserves the kernel support `S`. -/
theorem r2Conv_equivariant {G P : Type} [Group G] [AddCommGroup P] [DecidableEq P]
    {din dout : Nat} (act : G → P → P) (S : Finset P)
    (K : P → Matrix (Fin dout) (Fin din) ℚ)
    (rin : G → Matrix (Fin din) (Fin din) ℚ) (rout : G → Matrix (Fin dout) (Fin dout) ℚ)
    (hone : ∀ x, act 1 x = x)
    (hcomp : ∀ g h x, act g (act h x) = act (g * h) x)
    (hsub : ∀ g x y, act g (x - y) = act g x - act g y)
    (hS : ∀ g, ∀ y ∈ S, act g y ∈ S)
    (hK : ∀ g, ∀ y ∈ S, K (act g⁻¹ y) * rin g = rout g * K y)
    (g : G) (f : P → Fin din → ℚ) (x : P) :
    r2Conv S K (transformUnderGroup act rin g f) x =
      transformUnderGroup act rout g (r2Conv S K f) x := by
  have hcancel : ∀ y, act g⁻¹ (act g y) = y := fun y => by
    rw [hcomp, inv_mul_cancel, hone]
  rw [r2Conv, transformUnderGroup, r2Conv, mulVec_finset_sum]
  calc
    ∑ y in S, (K y).mulVec (transformUnderGroup act rin g f (x - y))
        = ∑ y in S, (K y * rin g).mulVec (f (act g x - act g y)) := by
          refine Finset.sum_congr rfl fun y _ => ?_
          rw [transformUnderGroup, Matrix.mulVec_mulVec, hsub]
    _ = ∑ w in S, (rout g * K w).mulVec (f (act g x - w)) := by
          refine Finset.sum_nbij' (fun y => act g y) (fun w => act g⁻¹ w)
            (fun y hy => hS g y hy) (fun w hw => hS g⁻¹ w hw)
            (fun y _ => hcancel y)
            (fun w hw => by
              show act g (act g⁻¹ w) = w
              rw [hcomp, mul_inv_cancel, hone])
            fun y hy => ?_
          rw [← hK g (act g y) (hS g y hy), hcancel y]
    _ = ∑ w in S, (rout g).mulVec ((K w).mulVec (f (act g x - w))) := by
          refine Finset.sum_congr rfl fun w _ => ?_
          rw [Matrix.mulVec_mulVec]

/-! ## The C4 action on the integer plane: facts for the convolution witness -/

theorem rot90_iterate_four (p : ℤ × ℤ) : rot90^[4] p = p := by
  show rot90 (rot90 (rot90 (rot90 p))) = p
  simp [rot90]

theorem rot90_iterate_mod (n : ℕ) (p : ℤ × ℤ) : rot90^[n] p = rot90^[n % 4] p := by
  induction n using Nat.strong_induction_on with
  | _ n ih =>
    by_cases h : n < 4
    · rw [Nat.mod_eq_of_lt h]
    · obtain ⟨m, rfl⟩ : ∃ m, n = m + 4 := ⟨n - 4, by omega⟩
      rw [Function.iterate_add_apply, rot90_iterate_four, ih m (by omega)]
      congr 1
      omega

theorem actC4_one (p : ℤ × ℤ) : actC4 1 p = p := rfl

theorem actC4_comp (g h : Multiplicative (ZMod 4)) (p : ℤ × ℤ) :
    actC4 g (actC4 h p) = actC4 (g * h) p := by
  rw [actC4, actC4, actC4, ← Function.iterate_add_apply]
  have hval : (Multiplicative.toAdd (g * h)).val
      = ((Multiplicative.toAdd g).val + (Multiplicative.toAdd h).val) % 4 := by
    rw [show Multiplicative.toAdd (g * h)
        = Multiplicative.toAdd g + Multiplicative.toAdd h from rfl, ZMod.val_add]
  rw [hval, ← rot90_iterate_mod]

theorem rot90_sub (p q : ℤ × ℤ) : rot90 (p - q) = rot90 p - rot90 q := by
  cases p with
  | mk a b =>
    cases q with
    | mk c d =>
      show ((-(b - d), a - c) : ℤ × ℤ) = (-b - -d, a - c)
      rw [Prod.mk.injEq]
      exact ⟨by ring, rfl⟩

theorem rot90_iterate_sub (n : ℕ) :
    ∀ p q : ℤ × ℤ, rot90^[n] (p - q) = rot90^[n] p - rot90^[n] q := by
  induction n with
  | zero => intro p q; rfl
  | succ m ih =>
    intro p q
    rw [Function.iterate_succ_apply, Function.iterate_succ_apply,
      Function.iterate_succ_apply, rot90_sub, ih]

theorem actC4_sub (g : Multiplicative (ZMod 4)) (p q : ℤ × ℤ) :
    actC4 g (p - q) = actC4 g p - actC4 g q := by
  rw [actC4, actC4, actC4]
  exact rot90_iterate_sub _ p q

/-- Witness for C2: the equivariance theorem applied to the concrete data: the C4
rotation action on the integer pixel grid, scalar (trivial) input and output fields,
the 5-point rotation-invariant kernel `Kc`, the concrete input field `fdemo`, the
generator rotation, and the output point (3, 5). -/
theorem r2Conv_equivariant_witness :
    r2Conv S5 Kc
        (transformUnderGroup actC4 rtriv (Multiplicative.ofAdd (1 : ZMod 4)) fdemo)
        (3, 5) =
      transformUnderGroup actC4 rtriv (Multiplicative.ofAdd (1 : ZMod 4))
        (r2Conv S5 Kc fdemo) (3, 5) := by
  refine r2Conv_equivariant actC4 S5 Kc rtriv rtriv actC4_one actC4_comp actC4_sub
    (by decide) ?_ (Multiplicative.ofAdd (1 : ZMod 4)) fdemo (3, 5)
  intro g y hy
  rw [rtriv, Matrix.mul_one, Matrix.one_mul]
  have hiff : (actC4 g⁻¹ y = (0, 0)) ↔ (y = (0, 0)) := by
    revert hy
    revert y
    revert g
    decide
  rw [Kc, Kc]
  by_cases hc : y = (0, 0)
  · rw [if_pos (hiff.mpr hc), if_pos hc]
  · rw [if_neg fun hh => hc (hiff.mp hh), if_neg hc]

/-! ## Rotation by multiples of 90 degrees is an exact pixel permutation -/

theorem bilinearAt_intCast (img : Fin 29 → Fin 29 → ℚ) (a b : ℤ) :
    bilinearAt img (a : ℚ) (b : ℚ) = extendZ img a b := by
  simp only [bilinearAt, Int.floor_intCast, sub_self]
  ring

theorem extendZ_val (img : Fin 29 → Fin 29 → ℚ) (i j : Fin 29) :
    extendZ img (i.val : ℤ) (j.val : ℤ) = img i j := by
  obtain ⟨iv, hi⟩ := i
  obtain ⟨jv, hj⟩ := j
  rw [extendZ, dif_pos (by omega)]
  simp only [Int.toNat_natCast]

theorem img_congr (img : Fin 29 → Fin 29 → ℚ) {a b c d : Fin 29}
    (h1 : a = c) (h2 : b = d) : img a b = img c d := by
  rw [h1, h2]

theorem rotateBilinear_int_coords (img : Fin 29 → Fin 29 → ℚ) (i j : Fin 29) (a b : ℤ)
    (ha : 0 ≤ a ∧ a < 29) (hb : 0 ≤ b ∧ b < 29) (co si : ℚ)
    (hu : 14 + co * ((i.val : ℚ) - 14) + si * ((j.val : ℚ) - 14) = (a : ℚ))
    (hv : 14 - si * ((i.val : ℚ) - 14) + co * ((j.val : ℚ) - 14) = (b : ℚ)) :
    rotateBilinear co si img i j
      = img ⟨a.toNat, by omega⟩ ⟨b.toNat, by omega⟩ := by
  simp only [rotateBilinear, srcCoord]
  rw [hu, hv, bilinearAt_intCast, extendZ, dif_pos (by omega)]

/-- C10: on the 29x29 padded image, rotation by each multiple of 90 degrees with
bilinear resampling introduces no interpolation: the source coordinates are integral,
so the rotated image is exactly the pixel permutation `rotIdx k` of the original (first
conjunct), and that index map is a bijection of the grid (second conjunct).
Consequently, in the notebook's recorded logits, the rows at 0, 90, 180 and 270 degrees
agree with the reference row within 1e-4 — one unit of the printed precision, i.e.
floating-point rounding scale — for both the untrained and the trained model (third
conjunct); this is strictly tighter than the 1e-3 tolerance, which the 45-degree row of
the trained model exceeds by three orders of magnitude (fourth conjunct). -/
theorem rot90_multiples_exact :
    (∀ (k : Fin 4) (img : Fin 29 → Fin 29 → ℚ) (i j : Fin 29),
        rotateBilinear (cos90 k) (sin90 k) img i j
          = img (rotIdx k (i, j)).1 (rotIdx k (i, j)).2) ∧
    (∀ k : Fin 4, Function.Bijective (rotIdx k)) ∧
    (∀ (q : Fin 4) (d : Fin 10),
        |untrainedLogits ⟨2 * q.val, by omega⟩ d - untrainedLogits 0 d| ≤ 1 ∧
          |trainedLogits ⟨2 * q.val, by omega⟩ d - trainedLogits 0 d| ≤ 1) ∧
    10 < |trainedLogits 1 4 - trainedLogits 0 4| := by
  refine ⟨?_, ?_, by decide, by decide⟩
  · intro k img i j
    have hi := i.isLt
    have hj := j.isLt
    fin_cases k
    · show rotateBilinear (cos90 0) (sin90 0) img i j
        = img (rotIdx 0 (i, j)).1 (rotIdx 0 (i, j)).2
      rw [rotateBilinear_int_coords img i j i.val j.val (by omega) (by omega)
        (cos90 0) (sin90 0)
        (by rw [show cos90 0 = 1 from rfl, show sin90 0 = 0 from rfl]; push_cast; ring)
        (by rw [show cos90 0 = 1 from rfl, show sin90 0 = 0 from rfl]; push_cast; ring),
        show rotIdx 0 (i, j) = (i, j) from rfl]
      refine img_congr img (Fin.ext ?_) (Fin.ext ?_)
      · show ((i.val : ℤ)).toNat = i.val
        omega
      · show ((j.val : ℤ)).toNat = j.val
        omega
    · show rotateBilinear (cos90 1) (sin90 1) img i j
        = img (rotIdx 1 (i, j)).1 (rotIdx 1 (i, j)).2
      rw [rotateBilinear_int_coords img i j j.val (28 - i.val) (by omega) (by omega)
        (cos90 1) (sin90 1)
        (by rw [show cos90 1 = 0 from rfl, show sin90 1 = 1 from rfl]; push_cast; ring)
        (by rw [show cos90 1 = 0 from rfl, show sin90 1 = 1 from rfl]; push_cast; ring),
        show rotIdx 1 (i, j) = (j, i.rev) from rfl]
      refine img_congr img (Fin.ext ?_) (Fin.ext ?_)
      · show ((j.val : ℤ)).toNat = j.val
        omega
      · show (28 - (i.val : ℤ)).toNat = 29 - (i.val + 1)
        omega
    · show rotateBilinear (cos90 2) (sin90 2) img i j
        = img (rotIdx 2 (i, j)).1 (rotIdx 2 (i, j)).2
      rw [rotateBilinear_int_coords img i j (28 - i.val) (28 - j.val) (by omega)
        (by omega) (cos90 2) (sin90 2)
        (by rw [show cos90 2 = -1 from rfl, show sin90 2 = 0 from rfl]; push_cast; ring)
        (by rw [show cos90 2 = -1 from rfl, show sin90 2 = 0 from rfl]; push_cast; ring),
        show rotIdx 2 (i, j) = (i.rev, j.rev) from rfl]
      refine img_congr img (Fin.ext ?_) (Fin.ext ?_)
      · show (28 - (i.val : ℤ)).toNat = 29 - (i.val + 1)
        omega
      · show (28 - (j.val : ℤ)).toNat = 29 - (j.val + 1)
        omega
    · show rotateBilinear (cos90 3) (sin90 3) img i j
        = img (rotIdx 3 (i, j)).1 (rotIdx 3 (i, j)).2
      rw [rotateBilinear_int_coords img i j (28 - j.val) i.val (by omega) (by omega)
        (cos90 3) (sin90 3)
        (by rw [show cos90 3 = 0 from rfl, show sin90 3 = -1 from rfl]; push_cast; ring)
        (by rw [show cos90 3 = 0 from rfl, show sin90 3 = -1 from rfl]; push_cast; ring),
        show rotIdx 3 (i, j) = (j.rev, i) from rfl]
      refine img_congr img (Fin.ext ?_) (Fin.ext ?_)
      · show (28 - (j.val : ℤ)).toNat = 29 - (j.val + 1)
        omega
      · show ((i.val : ℤ)).toNat = i.val
        omega
  · intro k
    fin_cases k
    · exact Function.bijective_id
    · show Function.Bijective (rotIdx 1)
      refine Function.bijective_iff_has_inverse.mpr ⟨rotIdx 3, fun p => ?_, fun p => ?_⟩
      · rw [show rotIdx 1 p = (p.2, p.1.rev) from rfl,
          show rotIdx 3 (p.2, p.1.rev) = (p.1.rev.rev, p.2) from rfl, Fin.rev_rev]
      · rw [show rotIdx 3 p = (p.2.rev, p.1) from rfl,
          show rotIdx 1 (p.2.rev, p.1) = (p.1, p.2.rev.rev) from rfl, Fin.rev_rev]
    · show Function.Bijective (rotIdx 2)
      refine Function.bijective_iff_has_inverse.mpr ⟨rotIdx 2, fun p => ?_, fun p => ?_⟩ <;>
        · rw [show rotIdx 2 (rotIdx 2 p) = (p.1.rev.rev, p.2.rev.rev) from rfl,
            Fin.rev_rev, Fin.rev_rev]
    · show Function.Bijective (rotIdx 3)
      refine Function.bijective_iff_has_inverse.mpr ⟨rotIdx 1, fun p => ?_, fun p => ?_⟩
      · rw [show rotIdx 3 p = (p.2.rev, p.1) from rfl,
          show rotIdx 1 (p.2.rev, p.1) = (p.1, p.2.rev.rev) from rfl, Fin.rev_rev]
      · rw [show rotIdx 1 p = (p.2, p.1.rev) from rfl,
          show rotIdx 3 (p.2, p.1.rev) = (p.1.rev.rev, p.2) from rfl, Fin.rev_rev]
